import Mathlib

/-!
Verification of the runtime core of a schema-driven XML-to-typed-tree parser
(`xml_parser_generator/module_template.c`).  The template's generated C is
embedded shallowly: each definition below mirrors one function of the source,
with machine integers modelled as `Nat`/`Int`, nullable object pointers as
`Option`, and fallible paths as `Except`/`Option` results.
-/

namespace XmlParser

/-! ## Name resolver (`hash_lookup` macro and `py_field_lookup`) -/

/-- A generated minimal-perfect-hash table: two salt strings (as code-unit
lists), the displacement array `g`, the key array `names` and the key count
(`ELEMENT_COUNT` / `ATTRIBUTE_COUNT` / `PY_FIELD_COUNT`). -/
structure HashTable where
  salt1 : List Nat
  salt2 : List Nat
  g : List Nat
  names : List (List Nat)
  count : Nat

/-- The weighted-checksum loop `for(i=0; key[i] && i<salt_length; i++)
f += salt[i]*key[i]`: it runs over the first `min |key| |salt|` code units. -/
def checksum (salt : List Nat) (key : List Nat) : Nat :=
  ((salt.zip key).map fun p => p.1 * p.2).sum

/-- The combination step `i = (g[f1 % g_length] + g[f2 % g_length]) % g_length`. -/
def hashIndex (t : HashTable) (key : List Nat) : Nat :=
  let f1 := checksum t.salt1 key
  let f2 := checksum t.salt2 key
  (t.g.getD (f1 % t.g.length) 0 + t.g.getD (f2 % t.g.length) 0) % t.g.length

/-- `hash_lookup` (the body generated for `element_lookup` / `attribute_lookup`):
`if(i < count && strcmp(key, names[i]) == 0) return i; return default;`.
`none` is the distinguished unknown sentinel (`ELEMENT_OTHER` /
`ATTRIBUTE_OTHER`). -/
def hash_lookup (t : HashTable) (key : List Nat) : Option Nat :=
  let i := hashIndex t key
  if i < t.count ∧ t.names.getD i [] = key then some i else none

/-- `py_field_lookup`: rejects keys longer than the salt
(`if(key_len > salt_length) return PY_FIELD_OTHER`), rejects any code unit
above 127 (`if(buffer[i] > 127) return PY_FIELD_OTHER`), otherwise evaluates
the same two-salt displacement formula and confirms the candidate.
`none` is `PY_FIELD_OTHER`. -/
def py_field_lookup (t : HashTable) (key : List Nat) : Option Nat :=
  if t.salt1.length < key.length then none
  else if key.any (fun u => 127 < u) then none
  else
    let i := hashIndex t key
    if i < t.count ∧ t.names.getD i [] = key then some i else none

/-! ## Keyword-argument resolution in the generated `node_class_tp_new`

`node_class_tp_new__T` resolves each keyword with `py_field_lookup` and hands
the code to `node_class_new_set_kw_field__T`, whose `switch` handles only the
type's own field codes and returns `0` in the `default` arm; `tp_new` turns a
`0` result into `raise_invalid_keyword_arg`. -/

/-- Outcome of one keyword argument in `node_class_tp_new`. -/
inductive KwOutcome (V : Type) where
  | assigned (slot : Nat) (v : V)
  | invalidKeyword
  deriving DecidableEq, Repr

/-- One iteration of the `PyDict_Next` loop in `node_class_tp_new`:
`handled` is the generated `switch` of `node_class_new_set_kw_field` (field
code → field slot); the sentinel `PY_FIELD_OTHER` matches no `case`, so it
falls to `default: return 0`, which `tp_new` reports as an invalid keyword. -/
def node_class_new_kw_step {V : Type} (t : HashTable) (handled : Nat → Option Nat)
    (key : List Nat) (v : V) : KwOutcome V :=
  match py_field_lookup t key with
  | none => KwOutcome.invalidKeyword
  | some code =>
    match handled code with
    | none => KwOutcome.invalidKeyword
    | some slot => KwOutcome.assigned slot v

theorem getD_names_eq {t : HashTable} {i : Nat} (hlt : i < t.names.length)
    {key : List Nat} (h : t.names.getD i [] = key) : t.names.get? i = some key := by
  rw [List.get?_eq_getElem?, List.getElem?_eq_getElem hlt]
  rw [List.getD_eq_getElem?_getD, List.getElem?_eq_getElem hlt, Option.getD_some] at h
  rw [h]

theorem hash_lookup_found {t : HashTable} {key : List Nat} {i : Nat}
    (hn : t.count ≤ t.names.length) (h : hash_lookup t key = some i) :
    i = hashIndex t key ∧ t.names.get? i = some key := by
  simp only [hash_lookup] at h
  by_cases hc : hashIndex t key < t.count ∧ t.names.getD (hashIndex t key) [] = key
  · rw [if_pos hc] at h
    injection h with h'
    subst h'
    exact ⟨rfl, getD_names_eq (lt_of_lt_of_le hc.1 hn) hc.2⟩
  · rw [if_neg hc] at h
    exact absurd h (by simp)

theorem py_field_lookup_found {t : HashTable} {key : List Nat} {i : Nat}
    (hn : t.count ≤ t.names.length) (h : py_field_lookup t key = some i) :
    i = hashIndex t key ∧ t.names.get? i = some key := by
  simp only [py_field_lookup] at h
  by_cases h1 : t.salt1.length < key.length
  · rw [if_pos h1] at h
    exact absurd h (by simp)
  · rw [if_neg h1] at h
    by_cases h2 : key.any (fun u => 127 < u) = true
    · rw [if_pos h2] at h
      exact absurd h (by simp)
    · rw [if_neg h2] at h
      by_cases hc : hashIndex t key < t.count ∧ t.names.getD (hashIndex t key) [] = key
      · rw [if_pos hc] at h
        injection h with h'
        subst h'
        exact ⟨rfl, getD_names_eq (lt_of_lt_of_le hc.1 hn) hc.2⟩
      · rw [if_neg hc] at h
        exact absurd h (by simp)

/-- C1: for every key, the resolver computes the two salted checksums, combines
them through the displacement array, and returns the combined index only after
confirming `names[index]` equals the key; any key that fails the confirmation
(or the `py_field_lookup` guards) yields the unknown sentinel, and no other
outcome exists. -/
theorem C1_name_resolver (t : HashTable) (key : List Nat)
    (hn : t.count ≤ t.names.length) :
    (∀ i, hash_lookup t key = some i →
        i = hashIndex t key ∧ t.names.get? i = some key) ∧
    (hash_lookup t key = some (hashIndex t key) ∨ hash_lookup t key = none) ∧
    (∀ i, py_field_lookup t key = some i →
        i = hashIndex t key ∧ t.names.get? i = some key) ∧
    (py_field_lookup t key = some (hashIndex t key) ∨ py_field_lookup t key = none) := by
  refine ⟨fun i h => hash_lookup_found hn h, ?_, fun i h => py_field_lookup_found hn h, ?_⟩
  · simp only [hash_lookup]
    by_cases hc : hashIndex t key < t.count ∧ t.names.getD (hashIndex t key) [] = key
    · exact Or.inl (if_pos hc)
    · exact Or.inr (if_neg hc)
  · simp only [py_field_lookup]
    by_cases h1 : t.salt1.length < key.length
    · exact Or.inr (if_pos h1)
    · rw [if_neg h1]
      by_cases h2 : key.any (fun u => 127 < u) = true
      · exact Or.inr (if_pos h2)
      · rw [if_neg h2]
        by_cases hc : hashIndex t key < t.count ∧ t.names.getD (hashIndex t key) [] = key
        · exact Or.inl (if_pos hc)
        · exact Or.inr (if_neg hc)

/-- Witness for C1 at a concrete table and key. -/
theorem C1_name_resolver_witness :
    (2 ≤ ([[97], [98]] : List (List Nat)).length) ∧
    ((∀ i, hash_lookup ⟨[1], [2], [0, 1], [[97], [98]], 2⟩ [97] = some i →
        i = hashIndex ⟨[1], [2], [0, 1], [[97], [98]], 2⟩ [97] ∧
        ([[97], [98]] : List (List Nat)).get? i = some [97]) ∧
     (hash_lookup ⟨[1], [2], [0, 1], [[97], [98]], 2⟩ [97] =
        some (hashIndex ⟨[1], [2], [0, 1], [[97], [98]], 2⟩ [97]) ∨
      hash_lookup ⟨[1], [2], [0, 1], [[97], [98]], 2⟩ [97] = none) ∧
     (∀ i, py_field_lookup ⟨[1], [2], [0, 1], [[97], [98]], 2⟩ [97] = some i →
        i = hashIndex ⟨[1], [2], [0, 1], [[97], [98]], 2⟩ [97] ∧
        ([[97], [98]] : List (List Nat)).get? i = some [97]) ∧
     (py_field_lookup ⟨[1], [2], [0, 1], [[97], [98]], 2⟩ [97] =
        some (hashIndex ⟨[1], [2], [0, 1], [[97], [98]], 2⟩ [97]) ∨
      py_field_lookup ⟨[1], [2], [0, 1], [[97], [98]], 2⟩ [97] = none)) :=
  ⟨by decide, C1_name_resolver ⟨[1], [2], [0, 1], [[97], [98]], 2⟩ [97] (by decide)⟩

/-- C10: a Python keyword whose length exceeds the salt length, or that has a
code point above 127, resolves to the unknown field code for every table with
those salts — the displacement array and name table are never consulted — and
the constructor's keyword loop reports it as an invalid keyword instead of
assigning any field. -/
theorem C10_long_or_nonascii_keyword (t : HashTable) (key : List Nat)
    (h : t.salt1.length < key.length ∨ ∃ u ∈ key, 127 < u)
    (V : Type) (handled : Nat → Option Nat) (v : V) :
    py_field_lookup t key = none ∧
    node_class_new_kw_step t handled key v = KwOutcome.invalidKeyword := by
  have hlookup : py_field_lookup t key = none := by
    simp only [py_field_lookup]
    rcases h with h | ⟨u, hu, h127⟩
    · rw [if_pos h]
    · by_cases h1 : t.salt1.length < key.length
      · rw [if_pos h1]
      · rw [if_neg h1]
        have hany : key.any (fun u => 127 < u) = true := by
          simp only [List.any_eq_true, decide_eq_true_eq]
          exact ⟨u, hu, h127⟩
        rw [if_pos hany]
  refine ⟨hlookup, ?_⟩
  simp only [node_class_new_kw_step]
  rw [hlookup]

/-- Witness for C10: the 2-unit key `[200, 10]` against a table with 3-unit
salts (unit 200 exceeds 127). -/
theorem C10_long_or_nonascii_keyword_witness :
    ((⟨[1, 1, 1], [2, 2, 2], [0], [[97]], 1⟩ : HashTable).salt1.length < ([200, 10] : List Nat).length
      ∨ ∃ u ∈ ([200, 10] : List Nat), 127 < u) ∧
    (py_field_lookup ⟨[1, 1, 1], [2, 2, 2], [0], [[97]], 1⟩ [200, 10] = none ∧
     node_class_new_kw_step ⟨[1, 1, 1], [2, 2, 2], [0], [[97]], 1⟩ (fun c => some c) [200, 10] (42 : Nat)
       = KwOutcome.invalidKeyword) :=
  ⟨by decide,
   C10_long_or_nonascii_keyword ⟨[1, 1, 1], [2, 2, 2], [0], [[97]], 1⟩ [200, 10]
     (by decide) Nat (fun c => some c) 42⟩

/-! ## Tuple-sequence rows (`frozen_list_push_tuple_item`,
`frozen_list_check_complete_tuple`) -/

/-- Result of `frozen_list_push_tuple_item`: either the updated row list with
the reserved slot's coordinates, or the `set_parse_error_format` diagnostic
carrying the attempted field name and the expected-preceding field name. -/
inductive PushTupleResult (V : Type) where
  | ok (rows : List (List (Option V))) (row : Nat) (col : Nat)
  | validationError (attempted expected : String)

/-- Field `j` of the most recent row (`((tuple_item*)fl->content[fl->size-1])->fields[j]`). -/
def lastRowGetD {V : Type} (fl : List (List (Option V))) (j : Nat) : Option V :=
  ((fl.getLast?).getD []).getD j none

/-- `frozen_list_push_tuple_item`: for the first field of a row
(`tuple_i == 0`), a non-empty list whose last row has its final field
(`fields[tuple_size-1]`) unfilled is an error naming `field_names[0]` and
`field_names[tuple_size-1]`; otherwise a fresh all-`none` row is appended.
For a later field, an empty list or an unfilled `fields[tuple_i-1]` is an
error naming `field_names[tuple_i]` and `field_names[tuple_i-1]`; otherwise
slot `tuple_i` of the last row is reserved. -/
def frozen_list_push_tuple_item {V : Type} (tuple_i tuple_size : Nat)
    (field_names : List String) (fl : List (List (Option V))) : PushTupleResult V :=
  if tuple_i = 0 then
    if fl.length ≠ 0 ∧ (lastRowGetD fl (tuple_size - 1)).isNone = true then
      PushTupleResult.validationError (field_names.getD 0 "") (field_names.getD (tuple_size - 1) "")
    else
      PushTupleResult.ok (fl ++ [List.replicate tuple_size none]) fl.length 0
  else
    if fl.length = 0 ∨ (lastRowGetD fl (tuple_i - 1)).isNone = true then
      PushTupleResult.validationError (field_names.getD tuple_i "") (field_names.getD (tuple_i - 1) "")
    else
      PushTupleResult.ok fl (fl.length - 1) tuple_i

/-- The `i = tuple_size; while(last->fields[i-1] == NULL) --i;` scan of
`frozen_list_check_complete_tuple` (with `0` in place of the impossible
all-empty case that the C asserts away). -/
def lastFilled {V : Type} (row : List (Option V)) : Nat → Nat
  | 0 => 0
  | j + 1 => if (row.getD j none).isNone = true then lastFilled row j else j + 1

/-- `frozen_list_check_complete_tuple`: `none` is the `return 0` success path;
`some (missing, preceding)` is the `set_parse_error_format` diagnostic raised
when the last row is incomplete. -/
def frozen_list_check_complete_tuple {V : Type} (tuple_size : Nat)
    (field_names : List String) (fl : List (List (Option V))) : Option (String × String) :=
  match fl.getLast? with
  | none => none
  | some last =>
    let i := lastFilled last tuple_size
    if i ≠ tuple_size then some (field_names.getD i "", field_names.getD (i - 1) "")
    else none

theorem lastFilled_le {V : Type} (row : List (Option V)) : ∀ n, lastFilled row n ≤ n
  | 0 => Nat.le_refl 0
  | j + 1 => by
    simp only [lastFilled]
    by_cases h : (row.getD j none).isNone = true
    · rw [if_pos h]
      exact Nat.le_trans (lastFilled_le row j) (Nat.le_succ j)
    · rw [if_neg h]

/-- C3: requesting a new row's first field while the previous row's final field
is unfilled, or field `i` while field `i-1` of the current row is unfilled,
is a ValidationError naming the attempted field and the expected-preceding
field; and finishing the content group with an incomplete last row is a
ValidationError as well. -/
theorem C3_tuple_row_ordering (V : Type) (field_names : List String)
    (tuple_size : Nat) (fl : List (List (Option V))) (i : Nat) :
    (fl.length ≠ 0 → (lastRowGetD fl (tuple_size - 1)).isNone = true →
      frozen_list_push_tuple_item 0 tuple_size field_names fl =
        PushTupleResult.validationError (field_names.getD 0 "")
          (field_names.getD (tuple_size - 1) "")) ∧
    (i ≠ 0 → (fl.length = 0 ∨ (lastRowGetD fl (i - 1)).isNone = true) →
      frozen_list_push_tuple_item i tuple_size field_names fl =
        PushTupleResult.validationError (field_names.getD i "")
          (field_names.getD (i - 1) "")) ∧
    (∀ last, fl.getLast? = some last → tuple_size ≠ 0 →
      (last.getD (tuple_size - 1) none).isNone = true →
      ∃ e, frozen_list_check_complete_tuple tuple_size field_names fl = some e) := by
  refine ⟨fun h1 h2 => ?_, fun hi hcond => ?_, fun last hlast hsz hempty => ?_⟩
  · simp only [frozen_list_push_tuple_item]
    rw [if_pos trivial, if_pos ⟨h1, h2⟩]
  · simp only [frozen_list_push_tuple_item]
    rw [if_neg hi, if_pos hcond]
  · obtain ⟨j, rfl⟩ : ∃ j, tuple_size = j + 1 := by
      cases tuple_size with
      | zero => exact absurd rfl hsz
      | succ j => exact ⟨j, rfl⟩
    have hlt : lastFilled last (j + 1) ≠ j + 1 := by
      have : lastFilled last (j + 1) = lastFilled last j := by
        simp only [lastFilled]
        rw [if_pos (by simpa using hempty)]
      rw [this]
      exact Nat.ne_of_lt (Nat.lt_succ_of_le (lastFilled_le last j))
    refine ⟨(field_names.getD (lastFilled last (j + 1)) "",
             field_names.getD (lastFilled last (j + 1) - 1) ""), ?_⟩
    simp only [frozen_list_check_complete_tuple, hlast]
    rw [if_pos hlt]

/-- Witness for C3: a two-field group `(a, b)` whose only row has `a` filled
and `b` unfilled; a new `a`, a `b` on an empty group, and content-finish all
raise. -/
theorem C3_tuple_row_ordering_witness :
    (([[some 1, none]] : List (List (Option Nat))).length ≠ 0) ∧
    (frozen_list_push_tuple_item 0 2 ["a", "b"] [[some (1 : Nat), none]] =
      PushTupleResult.validationError "a" "b") ∧
    (frozen_list_push_tuple_item 1 2 ["a", "b"] ([] : List (List (Option Nat))) =
      PushTupleResult.validationError "b" "a") ∧
    (∃ e, frozen_list_check_complete_tuple 2 ["a", "b"] [[some (1 : Nat), none]] = some e) :=
  ⟨by decide,
   (C3_tuple_row_ordering Nat ["a", "b"] 2 [[some 1, none]] 1).1 (by decide) (by decide),
   (C3_tuple_row_ordering Nat ["a", "b"] 2 [] 1).2.1 (by decide) (by decide),
   (C3_tuple_row_ordering Nat ["a", "b"] 2 [[some 1, none]] 1).2.2 [some 1, none] rfl
     (by decide) (by decide)⟩

/-! ## Duplicate attribute handling (`set_string_attribute`,
`warn_duplicate_attribute`) -/

/-- `set_string_attribute` for one occurrence of a recognized non-repeatable
attribute: a filled field means a repeated occurrence — `warn_duplicate_attribute`
fires once (modelled as a warning counter; it is non-fatal under the default
warning policy, `PyErr_WarnFormat` returning 0) and the stored first value is
kept; an empty field stores the occurrence's value. -/
def set_string_attribute (field : Option String) (warnings : Nat) (value : String) :
    Option String × Nat :=
  match field with
  | some v => (some v, warnings + 1)
  | none => (some value, warnings)

/-- The attribute loop of the generated `node_class_start`, restricted to the
occurrences of one recognized non-repeatable attribute in document order. -/
def processAttrOccurrences (occs : List String) : Option String × Nat :=
  occs.foldl (fun fw v => set_string_attribute fw.1 fw.2 v) (none, 0)

theorem processAttr_from_filled (v : String) (w : Nat) (rest : List String) :
    rest.foldl (fun fw val => set_string_attribute fw.1 fw.2 val) (some v, w)
      = (some v, w + rest.length) := by
  induction rest generalizing w with
  | nil => simp
  | cons r rest ih =>
    rw [List.foldl_cons]
    show List.foldl (fun (fw : Option String × Nat) val => set_string_attribute fw.1 fw.2 val)
        (some v, w + 1) rest = (some v, w + (r :: rest).length)
    rw [ih (w + 1)]
    simp only [List.length_cons, Prod.mk.injEq, true_and]
    omega

/-- C6: over any number of occurrences of one recognized non-repeatable
attribute, the first occurrence's value is retained and exactly one duplicate
warning is emitted per repeat beyond the first (none when it occurs once). -/
theorem C6_duplicate_attribute_warnings (v : String) (rest : List String) :
    processAttrOccurrences (v :: rest) = (some v, rest.length) := by
  simp only [processAttrOccurrences, List.foldl_cons]
  show List.foldl (fun (fw : Option String × Nat) val => set_string_attribute fw.1 fw.2 val)
      (some v, 0) rest = (some v, rest.length)
  rw [processAttr_from_filled v 0 rest, Nat.zero_add]

/-! ## Unknown-element subtrees (`start_element`, `end_element`,
`character_data` and `ignore_level`) -/

/-- One expat event as seen by the handlers; `known` records whether the
current frame's child-start callback recognizes the element
(`cs_call` returning 1) or not (`cs_call` returning 0, or `cs_call == NULL`). -/
inductive XmlEvent where
  | start (known : Bool)
  | close
  | text
  deriving DecidableEq, Repr

/-- The per-parse state observed by the three expat handlers under the default
warning policy: the `ignore_level` counter, the warning count, the callback
stack depth, and the trace of events actually dispatched to frame handlers
(the tree-building work). -/
structure ExpatState where
  ignore_level : Nat
  warnings : Nat
  frames : Nat
  handled : List XmlEvent
  deriving DecidableEq, Repr

/-- `start_element`: inside ignore mode the level is incremented and nothing
else happens; otherwise a recognized child is dispatched (frame pushed), and
an unrecognized one emits one warning and enters ignore mode at level 1. -/
def start_element (s : ExpatState) (known : Bool) : ExpatState :=
  if s.ignore_level ≠ 0 then { s with ignore_level := s.ignore_level + 1 }
  else if known then
    { s with frames := s.frames + 1, handled := s.handled ++ [XmlEvent.start known] }
  else
    { s with warnings := s.warnings + 1, ignore_level := 1 }

/-- `end_element`: inside ignore mode the level is decremented and nothing
else happens; otherwise the finish callback runs and the frame is popped. -/
def end_element (s : ExpatState) : ExpatState :=
  if s.ignore_level ≠ 0 then { s with ignore_level := s.ignore_level - 1 }
  else { s with frames := s.frames - 1, handled := s.handled ++ [XmlEvent.close] }

/-- `character_data`: inside ignore mode the text is dropped. -/
def character_data (s : ExpatState) : ExpatState :=
  if s.ignore_level ≠ 0 then s
  else { s with handled := s.handled ++ [XmlEvent.text] }

/-- The expat event loop delivering events in document order. -/
def processEvents (s : ExpatState) : List XmlEvent → ExpatState
  | [] => s
  | XmlEvent.start k :: es => processEvents (start_element s k) es
  | XmlEvent.close :: es => processEvents (end_element s) es
  | XmlEvent.text :: es => processEvents (character_data s) es

def eventDelta : XmlEvent → Int
  | XmlEvent.start _ => 1
  | XmlEvent.close => -1
  | XmlEvent.text => 0

def netDepth (es : List XmlEvent) : Int := (es.map eventDelta).sum

/-- A well-nested element body: closes never outnumber opens in a prefix, and
the whole sequence returns to its starting depth. -/
def Balanced (es : List XmlEvent) : Prop :=
  netDepth es = 0 ∧ ∀ k, 0 ≤ netDepth (es.take k)

theorem processEvents_append (s : ExpatState) (a b : List XmlEvent) :
    processEvents s (a ++ b) = processEvents (processEvents s a) b := by
  induction a generalizing s with
  | nil => rfl
  | cons e es ih =>
    cases e <;> simp only [List.cons_append, processEvents] <;> exact ih _

theorem netDepth_cons (e : XmlEvent) (es : List XmlEvent) :
    netDepth (e :: es) = eventDelta e + netDepth es := by
  simp [netDepth]

/-- Inside ignore mode, a body that never closes more elements than the mode
has already swallowed only moves the `ignore_level` counter: no warning, no
frame push or pop, and no dispatched (tree-building) event. -/
theorem processEvents_ignored (es : List XmlEvent) :
    ∀ (s : ExpatState) (n : Nat), s.ignore_level = n + 1 →
      (∀ k, -(n : Int) ≤ netDepth (es.take k)) →
      processEvents s es = { s with ignore_level := ((n : Int) + 1 + netDepth es).toNat } := by
  induction es with
  | nil =>
    intro s n hs _
    simp only [processEvents, netDepth, List.map_nil, List.sum_nil, Int.add_zero]
    have h1 : ((n : Int) + 1).toNat = n + 1 := by omega
    rw [h1, ← hs]
  | cons e es ih =>
    intro s n hs hpre
    obtain ⟨il, w, f, hd⟩ := s
    simp only at hs
    subst hs
    cases e with
    | start k =>
      simp only [processEvents]
      have hse : start_element ⟨n + 1, w, f, hd⟩ k = ⟨n + 1 + 1, w, f, hd⟩ := by
        simp [start_element]
      rw [hse]
      have hpre' : ∀ j, -((n + 1 : Nat) : Int) ≤ netDepth (es.take j) := by
        intro j
        have h := hpre (j + 1)
        rw [List.take_succ_cons, netDepth_cons] at h
        simp only [eventDelta] at h
        push_cast
        omega
      rw [ih ⟨n + 1 + 1, w, f, hd⟩ (n + 1) rfl hpre']
      simp only [ExpatState.mk.injEq, and_true]
      rw [netDepth_cons]
      simp only [eventDelta]
      push_cast
      omega
    | close =>
      simp only [processEvents]
      have hn : 1 ≤ n := by
        have h := hpre 1
        rw [List.take_succ_cons, List.take_zero, netDepth_cons] at h
        simp only [eventDelta, netDepth, List.map_nil, List.sum_nil, Int.add_zero] at h
        omega
      obtain ⟨m, rfl⟩ : ∃ m, n = m + 1 := ⟨n - 1, by omega⟩
      have hee : end_element ⟨m + 1 + 1, w, f, hd⟩ = ⟨m + 1, w, f, hd⟩ := by
        simp [end_element]
      rw [hee]
      have hpre' : ∀ j, -((m : Nat) : Int) ≤ netDepth (es.take j) := by
        intro j
        have h := hpre (j + 1)
        rw [List.take_succ_cons, netDepth_cons] at h
        simp only [eventDelta] at h
        push_cast at h ⊢
        omega
      rw [ih ⟨m + 1, w, f, hd⟩ m rfl hpre']
      simp only [ExpatState.mk.injEq, and_true]
      rw [netDepth_cons]
      simp only [eventDelta]
      push_cast
      omega
    | text =>
      simp only [processEvents]
      have hcd : character_data ⟨n + 1, w, f, hd⟩ = ⟨n + 1, w, f, hd⟩ := by
        simp [character_data]
      rw [hcd]
      rw [ih ⟨n + 1, w, f, hd⟩ n rfl (by
        intro j
        have h := hpre (j + 1)
        rw [List.take_succ_cons, netDepth_cons] at h
        simp only [eventDelta] at h
        omega)]
      simp only [ExpatState.mk.injEq, and_true]
      rw [netDepth_cons]
      simp only [eventDelta]
      omega

/-- C7: under the default policy an unrecognized child element emits exactly
one warning, its entire well-nested subtree (descendant elements and character
data) is swallowed without any frame push/pop or dispatched tree-building
event, ignore mode ends exactly at the unrecognized element's matching close,
and processing of the remaining events continues as if the subtree had not
occurred. -/
theorem C7_unknown_subtree_ignored (s : ExpatState) (es rest : List XmlEvent)
    (h0 : s.ignore_level = 0) (hb : Balanced es) :
    processEvents s (XmlEvent.start false :: (es ++ XmlEvent.close :: rest)) =
      processEvents { s with warnings := s.warnings + 1 } rest := by
  obtain ⟨il, w, f, hd⟩ := s
  simp only at h0
  subst h0
  simp only [processEvents]
  have h1 : start_element ⟨0, w, f, hd⟩ false = ⟨1, w + 1, f, hd⟩ := by
    simp [start_element]
  rw [h1, processEvents_append]
  have h2 : processEvents ⟨1, w + 1, f, hd⟩ es = ⟨1, w + 1, f, hd⟩ := by
    rw [processEvents_ignored es ⟨1, w + 1, f, hd⟩ 0 rfl (by
      intro k
      have h := hb.2 k
      push_cast
      omega)]
    rw [hb.1]
    rfl
  rw [h2]
  simp only [processEvents]
  have h3 : end_element ⟨1, w + 1, f, hd⟩ = ⟨0, w + 1, f, hd⟩ := by
    simp [end_element]
  rw [h3]

/-- Witness for C7: an unrecognized element containing one recognized child
with text, followed by one more recognized sibling after it closes. -/
theorem C7_unknown_subtree_ignored_witness :
    ((⟨0, 0, 0, []⟩ : ExpatState).ignore_level = 0 ∧
      Balanced [XmlEvent.start true, XmlEvent.text, XmlEvent.close]) ∧
    processEvents ⟨0, 0, 0, []⟩
        (XmlEvent.start false ::
          ([XmlEvent.start true, XmlEvent.text, XmlEvent.close] ++
            XmlEvent.close :: [XmlEvent.start true])) =
      processEvents ⟨0, 1, 0, []⟩ [XmlEvent.start true] :=
  ⟨⟨rfl, rfl, fun k => by
      match k with
      | 0 => decide
      | 1 => decide
      | 2 => decide
      | n + 3 =>
        rw [List.take_of_length_le (by simp)]
        decide⟩,
   C7_unknown_subtree_ignored ⟨0, 0, 0, []⟩
     [XmlEvent.start true, XmlEvent.text, XmlEvent.close] [XmlEvent.start true] rfl
     ⟨rfl, fun k => by
        match k with
        | 0 => decide
        | 1 => decide
        | 2 => decide
        | n + 3 =>
          rw [List.take_of_length_le (by simp)]
          decide⟩⟩

/-! ## Frozen list iteration (`frozen_list_tp_iter`, `frozen_list_itr_tp_next`) -/

/-- A `FrozenListItr`: the `fl` pointer (`none` once cleared) together with the
cursor `i`. -/
def FrozenListItr (V : Type) := Option (List V × Nat)

/-- `frozen_list_tp_iter`: each call allocates a fresh iterator with `i = 0`,
holding the list only when it is non-empty. -/
def frozen_list_tp_iter {V : Type} (l : List V) : FrozenListItr V :=
  if l.length ≠ 0 then some (l, 0) else none

/-- `frozen_list_itr_tp_next`: yields `content[i]`, advances the cursor, and
clears the list reference when the end is reached (the `i < size` assertion
holds whenever `fl` is non-null, making the out-of-range arm unreachable). -/
def frozen_list_itr_tp_next {V : Type} : FrozenListItr V → Option (V × FrozenListItr V)
  | none => none
  | some (fl, i) =>
    match fl.get? i with
    | none => none
    | some r => some (r, if i + 1 = fl.length then none else some (fl, i + 1))

/-- Drains an iterator by repeated `tp_next` calls (`fuel` bounds the pass). -/
def itrToList {V : Type} : Nat → FrozenListItr V → List V
  | 0, _ => []
  | fuel + 1, itr =>
    match frozen_list_itr_tp_next itr with
    | none => []
    | some (v, itr') => v :: itrToList fuel itr'

theorem next_at {V : Type} (l : List V) (i : Nat) (hi : i < l.length) :
    frozen_list_itr_tp_next (some (l, i)) =
      some (l.get ⟨i, hi⟩, if i + 1 = l.length then none else some (l, i + 1)) := by
  simp only [frozen_list_itr_tp_next]
  rw [List.get?_eq_getElem?, List.getElem?_eq_getElem hi]
  rfl

theorem itrToList_none {V : Type} : ∀ fuel : Nat, itrToList fuel (none : FrozenListItr V) = []
  | 0 => rfl
  | _ + 1 => rfl

theorem itrToList_drop {V : Type} (l : List V) :
    ∀ (fuel i : Nat), l.length - i ≤ fuel →
      itrToList fuel (some (l, i)) = l.drop i := by
  intro fuel
  induction fuel with
  | zero =>
    intro i h
    simp only [itrToList]
    rw [List.drop_eq_nil_of_le (by omega)]
  | succ fuel ih =>
    intro i h
    by_cases hi : i < l.length
    · simp only [itrToList]
      rw [next_at l i hi]
      by_cases hend : i + 1 = l.length
      · rw [if_pos hend]
        rw [List.drop_eq_getElem_cons hi, List.drop_eq_nil_of_le (by omega)]
        simp [itrToList_none]
      · rw [if_neg hend]
        rw [List.drop_eq_getElem_cons hi]
        simp only [List.cons.injEq]
        exact ⟨rfl, ih (i + 1) (by omega)⟩
    · simp only [itrToList, frozen_list_itr_tp_next]
      rw [List.get?_eq_getElem?, List.getElem?_eq_none (by omega)]
      rw [List.drop_eq_nil_of_le (by omega)]

/-- C8: each iteration request over a frozen list yields a fresh cursor at
index 0; one full pass yields exactly the list's elements in document order
(the same sequence as indexed access), and any number of passes all yield
that same sequence — a pass does not exhaust the list for later passes. -/
theorem C8_frozen_list_iteration (V : Type) (l : List V) (fuel : Nat)
    (h : l.length ≤ fuel) :
    itrToList fuel (frozen_list_tp_iter l) = l ∧
    (∀ i : Nat, (itrToList fuel (frozen_list_tp_iter l)).get? i = l.get? i) ∧
    (∀ passes : Nat,
      List.replicate passes (itrToList fuel (frozen_list_tp_iter l)) =
        List.replicate passes l) := by
  have hmain : itrToList fuel (frozen_list_tp_iter l) = l := by
    simp only [frozen_list_tp_iter]
    by_cases hl : l.length ≠ 0
    · rw [if_pos hl, itrToList_drop l fuel 0 (by omega), List.drop_zero]
    · rw [if_neg hl, itrToList_none]
      have : l.length = 0 := by omega
      exact (List.length_eq_zero.mp this).symm
  exact ⟨hmain, fun i => by rw [hmain], fun passes => by rw [hmain]⟩

/-- Witness for C8: a three-element frozen list drained with fuel 3. -/
theorem C8_frozen_list_iteration_witness :
    (([10, 20, 30] : List Nat).length ≤ 3) ∧
    (itrToList 3 (frozen_list_tp_iter [10, 20, 30]) = [10, 20, 30] ∧
     (∀ i : Nat, (itrToList 3 (frozen_list_tp_iter [10, 20, 30])).get? i =
        ([10, 20, 30] : List Nat).get? i) ∧
     (∀ passes : Nat,
        List.replicate passes (itrToList 3 (frozen_list_tp_iter [10, 20, 30])) =
          List.replicate passes ([10, 20, 30] : List Nat))) :=
  ⟨by decide, C8_frozen_list_iteration Nat [10, 20, 30] 3 (by decide)⟩

/-! ## Single-character leaf (`node_start_spType`), `parse_integer`,
`non_whitespace` -/

/-- The whitespace cases of `non_whitespace`'s `switch`. -/
def wsChar (c : Char) : Bool :=
  c = ' ' || c = '\t' || c = '\n' || c = '\r' || c = '\x0b'

/-- `non_whitespace(s, len)`: the `for(i=0; i<len; ++i)` scan; a non-positive
`len` never enters the loop (so the result is 0), and reaching the
terminating NUL inside the loop returns `len >= 0`, i.e. true there. -/
def non_whitespace (s : List Char) (len : Int) : Bool :=
  if len ≤ 0 then false
  else
    match s with
    | [] => true
    | c :: rest => if wsChar c then non_whitespace rest (len - 1) else true

/-- C `isspace` characters skipped by `strtol`. -/
def strtolSpace (c : Char) : Bool :=
  c = ' ' || c = '\t' || c = '\n' || c = '\r' || c = '\x0b' || c = '\x0c'

def isDigitChar (c : Char) : Bool := decide ('0' ≤ c) && decide (c ≤ '9')

/-- The digit-consuming loop of `strtol` (base 10), unclamped. -/
def strtol_digits : List Char → Int → Int × List Char
  | [], acc => (acc, [])
  | c :: rest, acc =>
    if isDigitChar c then strtol_digits rest (acc * 10 + ((c.toNat : Int) - 48))
    else (acc, c :: rest)

/-- `strtol(str, &end, 10)`: skip spaces, optional sign, then digits; returns
the (unclamped) value and an unconsumed tail.  The tail is only ever passed to
`non_whitespace(end, -1)`, which is identically false, so the C end-pointer
subtleties (no-conversion resets `end` to `str`) are observationally inert. -/
def strtol (s : List Char) : Int × List Char :=
  match s.dropWhile strtolSpace with
  | '-' :: rest =>
    let r := strtol_digits rest 0
    (-r.1, r.2)
  | '+' :: rest => strtol_digits rest 0
  | other => strtol_digits other 0

/-- `parse_integer`: `strtol` plus the `errno != 0` overflow test (ERANGE on a
value outside the 64-bit `long` range) and the `non_whitespace(end, -1)`
trailing test (identically false since its loop bound is -1). -/
def parse_integer (s : List Char) : Option Int :=
  let r := strtol s
  if r.1 < -(2 ^ 63) ∨ 2 ^ 63 - 1 < r.1 then none
  else if non_whitespace r.2 (-1) then none
  else some r.1

instance exceptDecidableEq {ε α : Type} [DecidableEq ε] [DecidableEq α] :
    DecidableEq (Except ε α) := fun x y =>
  match x, y with
  | Except.ok a, Except.ok b =>
    if h : a = b then isTrue (by rw [h])
    else isFalse (by intro hc; cases hc; exact h rfl)
  | Except.ok _, Except.error _ => isFalse (by intro hc; cases hc)
  | Except.error _, Except.ok _ => isFalse (by intro hc; cases hc)
  | Except.error a, Except.error b =>
    if h : a = b then isTrue (by rw [h])
    else isFalse (by intro hc; cases hc; exact h rfl)

/-- The two fatal paths of `node_start_spType`'s attribute loop. -/
inductive SpErr where
  | badInteger
  | outOfRange
  deriving DecidableEq, Repr

/-- The `for(; *attr != NULL; attr += 2)` loop of `node_start_spType`: an
attribute not named "value" only adds an unexpected-attribute warning — the
loop body still integer-coerces and range-checks its value and stores it in
`c`, which starts as the space character. -/
def spType_attr_loop : List (String × String) → Int → Nat → Except SpErr (Int × Nat)
  | [], c, w => Except.ok (c, w)
  | (name, val) :: rest, _, w =>
    let w' := if name ≠ "value" then w + 1 else w
    match parse_integer val.data with
    | none => Except.error SpErr.badInteger
    | some v =>
      if v < 0 ∨ 127 < v then Except.error SpErr.outOfRange
      else spType_attr_loop rest v w'

/-- `node_start_spType`: run the attribute loop from `c = ' '`, then build the
one-character string, storing it into an empty destination or appending it to
already-accumulated text; the result carries the warning count. -/
def node_start_spType (attrs : List (String × String)) (dest : Option String) :
    Except SpErr (String × Nat) :=
  match spType_attr_loop attrs 32 0 with
  | Except.error e => Except.error e
  | Except.ok (c, w) =>
    let ch := String.singleton (Char.ofNat c.toNat)
    match dest with
    | none => Except.ok (ch, w)
    | some t => Except.ok (t ++ ch, w)

theorem spType_attr_loop_ok {attrs : List (String × String)} :
    ∀ {c : Int} {w : Nat} {res : Int × Nat}, spType_attr_loop attrs c w = Except.ok res →
      ∀ a ∈ attrs, ∃ v, parse_integer a.2.data = some v ∧ 0 ≤ v ∧ v ≤ 127 := by
  induction attrs with
  | nil =>
    intro c w res _ a ha
    exact absurd ha (List.not_mem_nil a)
  | cons p rest ih =>
    intro c w res h a ha
    obtain ⟨name, val⟩ := p
    simp only [spType_attr_loop] at h
    split at h
    · exact absurd h (by simp)
    · rename_i v hpi
      split at h
      · exact absurd h (by simp)
      · rename_i hr
        rcases List.mem_cons.mp ha with rfl | hmem
        · exact ⟨v, hpi, by omega, by omega⟩
        · exact ih h a hmem

/-- C9: the spType leaf needs no attributes — with none it succeeds and yields
the single space character, appending it when text has already accumulated —
and a successful parse implies every attribute present (whatever its name) had
a value that integer-coerced into [0,127]; a non-"value" attribute is still
range-checked. -/
theorem C9_spType_space_and_range (attrs : List (String × String)) (dest : Option String) :
    (node_start_spType [] none = Except.ok (" ", 0)) ∧
    (∀ t, node_start_spType [] (some t) = Except.ok (t ++ " ", 0)) ∧
    (∀ res, node_start_spType attrs dest = Except.ok res →
      ∀ a ∈ attrs, ∃ v, parse_integer a.2.data = some v ∧ 0 ≤ v ∧ v ≤ 127) ∧
    (node_start_spType [("foo", "200")] none = Except.error SpErr.outOfRange) := by
  refine ⟨by decide, fun t => rfl, fun res h a ha => ?_, by decide⟩
  simp only [node_start_spType] at h
  split at h
  · exact absurd h (by simp)
  · rename_i cw heq
    exact spType_attr_loop_ok heq a ha

/-- Witness for C9: an attribute named `foo` (not `value`) with value 65 — the
parse succeeds with character `A` and one unexpected-attribute warning, and the
theorem's range property instantiates at it. -/
theorem C9_spType_space_and_range_witness :
    (node_start_spType [("foo", "65")] none = Except.ok ("A", 1)) ∧
    (∀ a ∈ [("foo", "65")], ∃ v, parse_integer a.2.data = some v ∧ 0 ≤ v ∧ v ≤ 127) :=
  ⟨by decide,
   (C9_spType_space_and_range [("foo", "65")] none).2.2.1 ("A", 1) (by decide)⟩

/-! ## Chunked input feeding (`parse_file`, `parse_str`) -/

/-- `EXPAT_CHUNK_SIZE` (`1<<20`): the largest single feed `parse_str` makes. -/
def EXPAT_CHUNK_SIZE : Nat := 2 ^ 20

/-- `EXPAT_BUFFER_SIZE` (`0x1000`): the read size `parse_file` requests;
`call_read` rejects any longer return. -/
def EXPAT_BUFFER_SIZE : Nat := 0x1000

/-- Modelled from the spec: the external tokenizer (expat) is a streaming
state machine over the byte sequence alone — `XML_Parse` / `XML_ParseBuffer`
feed it bytes, and the call carrying `isFinal` (for `parse_file`, the
zero-length read) runs end-of-input processing.  The parse outcome (events
delivered, hence the value or error produced) is a function of the tokenizer
state, so chunk boundaries are invisible to it. -/
structure Expat (σ ε : Type) where
  step : σ → Nat → Except ε σ
  finalize : σ → Except ε σ

/-- Feeding one buffer without finalizing: `XML_Parse(parser, chunk, len, 0)`
(equivalently `XML_ParseBuffer(parser, len, 0)` after filling the buffer). -/
def feedChunk {σ ε : Type} (T : Expat σ ε) : σ → List Nat → Except ε σ
  | s, [] => Except.ok s
  | s, b :: rest =>
    match T.step s b with
    | Except.error e => Except.error e
    | Except.ok s' => feedChunk T s' rest

/-- Feeding the whole input as one buffer with `isFinal = 1`:
`XML_Parse(parser, buf, len, 1)`. -/
def parse_single {σ ε : Type} (T : Expat σ ε) (s : σ) (input : List Nat) : Except ε σ :=
  match feedChunk T s input with
  | Except.error e => Except.error e
  | Except.ok s' => T.finalize s'

/-- `parse_str`: `while(len > EXPAT_CHUNK_SIZE)` feed `EXPAT_CHUNK_SIZE` bytes
non-final, then feed the remainder with `isFinal = 1`. -/
def parse_str {σ ε : Type} (T : Expat σ ε) (s : σ) (input : List Nat) : Except ε σ :=
  if _h : EXPAT_CHUNK_SIZE < input.length then
    match feedChunk T s (input.take EXPAT_CHUNK_SIZE) with
    | Except.error e => Except.error e
    | Except.ok s' => parse_str T s' (input.drop EXPAT_CHUNK_SIZE)
  else
    match feedChunk T s input with
    | Except.error e => Except.error e
    | Except.ok s' => T.finalize s'
termination_by input.length
decreasing_by
  simp only [List.length_drop]
  have h0 : 0 < EXPAT_CHUNK_SIZE := by decide
  omega

/-- `parse_file`: the `do { read; XML_ParseBuffer(bytes_read, bytes_read==0); }
while(bytes_read)` loop — each read's bytes are fed non-final, and the first
zero-length read is the final (empty) feed that ends the loop.  The argument
lists the successive `read()` returns. -/
def parse_file {σ ε : Type} (T : Expat σ ε) : σ → List (List Nat) → Except ε σ
  | s, [] => T.finalize s
  | s, c :: cs =>
    if c.length = 0 then T.finalize s
    else
      match feedChunk T s c with
      | Except.error e => Except.error e
      | Except.ok s' => parse_file T s' cs

theorem feedChunk_append {σ ε : Type} (T : Expat σ ε) (a b : List Nat) :
    ∀ s, feedChunk T s (a ++ b) =
      match feedChunk T s a with
      | Except.error e => Except.error e
      | Except.ok s' => feedChunk T s' b := by
  induction a with
  | nil => intro s; rfl
  | cons x xs ih =>
    intro s
    simp only [List.cons_append, feedChunk]
    cases T.step s x with
    | error e => rfl
    | ok s' => exact ih s'

theorem parse_single_append {σ ε : Type} (T : Expat σ ε) (a b : List Nat) (s : σ) :
    parse_single T s (a ++ b) =
      match feedChunk T s a with
      | Except.error e => Except.error e
      | Except.ok s' => parse_single T s' b := by
  simp only [parse_single, feedChunk_append]
  cases feedChunk T s a with
  | error e => rfl
  | ok s' => rfl

theorem parse_file_eq_single {σ ε : Type} (T : Expat σ ε) (chunks : List (List Nat))
    (h : ∀ c ∈ chunks, c ≠ []) :
    ∀ s, parse_file T s chunks = parse_single T s chunks.flatten := by
  induction chunks with
  | nil => intro s; rfl
  | cons c cs ih =>
    intro s
    have hc : c ≠ [] := h c (List.mem_cons_self c cs)
    have hlen : ¬c.length = 0 := by
      simpa using hc
    simp only [parse_file, if_neg hlen, List.flatten_cons]
    rw [parse_single_append]
    cases feedChunk T s c with
    | error e => rfl
    | ok s' => exact ih (fun x hx => h x (List.mem_cons_of_mem c hx)) s'

theorem parse_str_eq_single_aux {σ ε : Type} (T : Expat σ ε) :
    ∀ (n : Nat) (input : List Nat), input.length ≤ n →
      ∀ s, parse_str T s input = parse_single T s input := by
  intro n
  induction n with
  | zero =>
    intro input hlen s
    rw [parse_str]
    rw [dif_neg (by omega)]
    rfl
  | succ n ih =>
    intro input hlen s
    rw [parse_str]
    by_cases h : EXPAT_CHUNK_SIZE < input.length
    · rw [dif_pos h]
      conv_rhs => rw [← List.take_append_drop EXPAT_CHUNK_SIZE input]
      rw [parse_single_append]
      cases feedChunk T s (input.take EXPAT_CHUNK_SIZE) with
      | error e => rfl
      | ok s' =>
        have hdrop : (input.drop EXPAT_CHUNK_SIZE).length ≤ n := by
          simp only [List.length_drop]
          have h0 : 0 < EXPAT_CHUNK_SIZE := by decide
          omega
        exact ih (input.drop EXPAT_CHUNK_SIZE) hdrop s'
    · rw [dif_neg h]
      rfl

/-- C2: feeding a document through the bounded-read file path as any sequence
of non-empty reads (each within the request size) yields exactly the same
final outcome — state or error — as feeding the same bytes as one in-memory
buffer in a single final feed, which also equals the in-memory `parse_str`
path over that buffer. -/
theorem C2_chunking_equivalence {σ ε : Type} (T : Expat σ ε) (s : σ)
    (chunks : List (List Nat)) (h : ∀ c ∈ chunks, c ≠ [])
    (_hsize : ∀ c ∈ chunks, c.length ≤ EXPAT_BUFFER_SIZE) :
    parse_file T s chunks = parse_single T s chunks.flatten ∧
    parse_str T s chunks.flatten = parse_single T s chunks.flatten ∧
    parse_file T s chunks = parse_str T s chunks.flatten := by
  have h1 := parse_file_eq_single T chunks h s
  have h2 := parse_str_eq_single_aux T chunks.flatten.length chunks.flatten (le_refl _) s
  exact ⟨h1, h2, by rw [h1, h2]⟩

/-- A concrete tokenizer that records every byte fed to it and marks
end-of-input with 99; used only to instantiate the chunking theorem. -/
def traceTokenizer : Expat (List Nat) Unit :=
  ⟨fun s b => Except.ok (s ++ [b]), fun s => Except.ok (s ++ [99])⟩

/-- Witness for C2: the bytes `[1, 2, 3]` read as the two chunks `[1]` and
`[2, 3]`, against a tokenizer that records the bytes it was fed. -/
theorem C2_chunking_equivalence_witness :
    ((∀ c ∈ [[1], [2, 3]], c ≠ ([] : List Nat)) ∧
     (∀ c ∈ ([[1], [2, 3]] : List (List Nat)), c.length ≤ EXPAT_BUFFER_SIZE)) ∧
    (parse_file traceTokenizer [] [[1], [2, 3]] =
      parse_single traceTokenizer [] ([[1], [2, 3]] : List (List Nat)).flatten ∧
     parse_str traceTokenizer [] ([[1], [2, 3]] : List (List Nat)).flatten =
      parse_single traceTokenizer [] ([[1], [2, 3]] : List (List Nat)).flatten ∧
     parse_file traceTokenizer [] [[1], [2, 3]] =
      parse_str traceTokenizer [] ([[1], [2, 3]] : List (List Nat)).flatten) :=
  ⟨⟨by decide, by decide⟩,
   C2_chunking_equivalence traceTokenizer [] [[1], [2, 3]] (by decide) (by decide)⟩

/-! ## Root element handling (`toplevel_start`, `set_parse_error`, and the
end-of-parse check of `parse`) -/

/-- A ParseError object: `args = (message, lineno)`. -/
structure ParseErrObj where
  message : String
  lineno : Option Nat
  deriving DecidableEq, Repr

/-- Return codes of a child-start callback: 1 handled, 0 unhandled, -1 fatal
(only -1 makes `start_element` call `XML_StopParser`). -/
inductive CsResult where
  | handled
  | unhandled
  | fatal
  deriving DecidableEq, Repr

/-- The driver state seen by `toplevel_start`: the root slot `*cb->value`
(tag name and payload of the tagged value once filled), the pending Python
exception, and the string `XML_ErrorString(XML_GetErrorCode(parser))` /
line number the expat query functions currently report. -/
structure DriverState (V : Type) where
  rootValue : Option (String × V)
  pendingError : Option ParseErrObj
  expatErrorString : String
  lineno : Nat
  deriving DecidableEq, Repr

/-- `set_parse_error` as written: it receives `msg` but constructs the
ParseError from `XML_ErrorString(XML_GetErrorCode(state->parser))` and the
current line number — `msg` is never used. -/
def set_parse_error {V : Type} (s : DriverState V) (msg : String) : DriverState V :=
  let _unused := msg
  { s with pendingError := some ⟨s.expatErrorString, some s.lineno⟩ }

/-- `toplevel_start` on a recognized root-element name (one generated `case`):
when the root slot is already filled it calls
`set_parse_error(state, "cannot have more than one root element")` but does
not return -1, so it goes on to create the tagged value, overwrite the root
slot and start the new root's parse, reporting the event handled.  An
unrecognized name falls to `default: return 0`. -/
def toplevel_start {V : Type} (s : DriverState V) (known : Bool) (tag : String)
    (payload : V) : DriverState V × CsResult :=
  if known then
    let s1 := if s.rootValue.isSome then
        set_parse_error s "cannot have more than one root element"
      else s
    ({ s1 with rootValue := some (tag, payload) }, CsResult.handled)
  else (s, CsResult.unhandled)

/-- The end-of-parse check of `parse()`: with no failure reported, a still-empty
root slot raises `ParseError("document without a recognized root element", None)`. -/
def parse_result {V : Type} (r_obj : Option V) : Except ParseErrObj V :=
  match r_obj with
  | none => Except.error ⟨"document without a recognized root element", none⟩
  | some v => Except.ok v

/-- C4 (code bug on the second-root half): for every state of the expat error
query, the ParseError installed on a second recognized root carries the
expat-reported string — `set_parse_error` drops its `msg` argument — so in
particular (no expat error being pending there, e.g. the empty string) it is
never "cannot have more than one root element"; moreover the callback reports
the event handled, overwriting the first root instead of aborting.  The
end-of-input half holds: an empty root slot at parse end yields
"document without a recognized root element". -/
theorem C4_second_root_error_bug (es : String) (n : Nat) :
    ((toplevel_start ⟨some ("a", 0), none, es, n⟩ true "b" (1 : Nat)).1.pendingError =
      some ⟨es, some n⟩) ∧
    ((toplevel_start ⟨some ("a", 0), none, "", 3⟩ true "b" (1 : Nat)).1.pendingError ≠
      some ⟨"cannot have more than one root element", some 3⟩) ∧
    ((toplevel_start ⟨some ("a", 0), none, es, n⟩ true "b" (1 : Nat)).2 =
      CsResult.handled) ∧
    ((toplevel_start ⟨some ("a", 0), none, es, n⟩ true "b" (1 : Nat)).1.rootValue =
      some ("b", 1)) ∧
    (parse_result (V := Nat) none =
      Except.error ⟨"document without a recognized root element", none⟩) :=
  ⟨rfl, by decide, rfl, rfl, rfl⟩

/-! ## Attribute and child finalization (`node_class_attr_end`,
`node_class_finish_fields`) -/

structure AttrRule where
  name : String
  optional : Bool

/-- Result of an attr-end call: the finalized field values, or the `-1`
return together with the ValidationError message it set (if any). -/
inductive AttrEndResult (V : Type) where
  | ok (fields : List V)
  | fail (err : Option String)
  deriving DecidableEq, Repr

/-- `raise_missing_attribute_error`'s message. -/
def missingAttrMsg (name : String) : String := "missing \"" ++ name ++ "\" attribute"

/-- `raise_missing_element_error`'s message. -/
def missingChildMsg (name : String) : String := "missing \"" ++ name ++ "\" child"

/-- `raise_empty_list_element_error`'s message. -/
def emptyListMsg (name : String) : String :=
  "at least one \"" ++ name ++ "\" child is required"

/-- `node_class_attr_end` over the type's own attributes (the generated
per-attribute `if`s, in declared order, paired with the field slots):
required-but-absent raises naming the attribute; optional-but-absent becomes
the absence marker `Py_None`. -/
def node_class_attr_end {V : Type} (absent : V) :
    List (AttrRule × Option V) → AttrEndResult V
  | [] => AttrEndResult.ok []
  | (r, f) :: rest =>
    match f with
    | some v =>
      match node_class_attr_end absent rest with
      | AttrEndResult.ok fs => AttrEndResult.ok (v :: fs)
      | AttrEndResult.fail e => AttrEndResult.fail e
    | none =>
      if r.optional then
        match node_class_attr_end absent rest with
        | AttrEndResult.ok fs => AttrEndResult.ok (absent :: fs)
        | AttrEndResult.fail e => AttrEndResult.fail e
      else AttrEndResult.fail (some (missingAttrMsg r.name))

/-- `node_class_attr_end` as emitted for a type with an attribute-bearing base
(module_template.c line 1450):
`if(node_class_attr_end__B(state),fields + BASE_FIELD_OFFSET__T__B) return -1;`
— the parenthesis closes the call after `state`, so the `if` tests the comma
expression whose value is the never-null pointer `fields + OFFSET`.  The base
handler's result is discarded and the function returns -1 before examining any
attribute, with no ValidationError set (as written, the one-argument call also
contradicts the two-parameter prototype declared for it at line 1034). -/
def node_class_attr_end_derived {V : Type} (absent : V)
    (base direct : List (AttrRule × Option V)) : AttrEndResult V :=
  let _discarded := node_class_attr_end absent base
  let _unexamined := direct
  AttrEndResult.fail none

structure ChildRule where
  name : String
  required : Bool

/-- A child field slot: a singular sub-value (`none` while absent) or the
frozen list of a repeated child. -/
inductive ChildSlot (V : Type) where
  | single (v : Option V)
  | list (l : List V)
  deriving DecidableEq, Repr

/-- `node_class_finish_fields` over the type's own children (generated
per-child checks in declared order): an empty required list raises the
distinct empty-list error, an absent required singular child raises the
missing-child error, and an absent optional singular child becomes the
absence marker. -/
def node_class_finish_fields {V : Type} (absent : V) :
    List (ChildRule × ChildSlot V) → Except String (List (ChildSlot V))
  | [] => Except.ok []
  | (r, ChildSlot.list l) :: rest =>
    if r.required ∧ l.length < 1 then Except.error (emptyListMsg r.name)
    else
      match node_class_finish_fields absent rest with
      | Except.ok fs => Except.ok (ChildSlot.list l :: fs)
      | Except.error e => Except.error e
  | (r, ChildSlot.single none) :: rest =>
    if r.required then Except.error (missingChildMsg r.name)
    else
      match node_class_finish_fields absent rest with
      | Except.ok fs => Except.ok (ChildSlot.single (some absent) :: fs)
      | Except.error e => Except.error e
  | (r, ChildSlot.single (some v)) :: rest =>
    match node_class_finish_fields absent rest with
    | Except.ok fs => Except.ok (ChildSlot.single (some v) :: fs)
    | Except.error e => Except.error e

/-- C5 (code bug in the base recursion): the direct-field finalizers do what
the claim says — a present required attribute passes, an absent one raises
naming it, an absent optional becomes the absence marker, an absent required
child and an empty required list raise their two distinct errors — but the
emitted attr-end of any type with an attribute-bearing base fails
unconditionally (returning -1 with no diagnostic) even on the very attribute
set its own direct handler accepts. -/
theorem C5_attr_end_base_recursion_bug :
    (node_class_attr_end (0 : Nat) [(⟨"id", false⟩, some 7)] = AttrEndResult.ok [7]) ∧
    (node_class_attr_end_derived (0 : Nat) [] [(⟨"id", false⟩, some 7)] =
      AttrEndResult.fail none) ∧
    (node_class_attr_end (0 : Nat) [(⟨"id", false⟩, none)] =
      AttrEndResult.fail (some (missingAttrMsg "id"))) ∧
    (node_class_attr_end (0 : Nat) [(⟨"label", true⟩, none)] = AttrEndResult.ok [0]) ∧
    (node_class_finish_fields (0 : Nat) [(⟨"kind", true⟩, ChildSlot.single none)] =
      Except.error (missingChildMsg "kind")) ∧
    (node_class_finish_fields (0 : Nat) [(⟨"item", true⟩, ChildSlot.list [])] =
      Except.error (emptyListMsg "item")) ∧
    (∀ name, missingChildMsg name ≠ emptyListMsg name) ∧
    (node_class_finish_fields (0 : Nat) [(⟨"label", false⟩, ChildSlot.single none)] =
      Except.ok [ChildSlot.single (some 0)]) := by
  refine ⟨by decide, by decide, by decide, by decide, by decide, by decide, ?_, by decide⟩
  intro name h
  have hlen := congrArg String.length h
  simp only [missingChildMsg, emptyListMsg, String.length_append] at hlen
  have e1 : ("missing \"" : String).length = 9 := rfl
  have e2 : ("\" child" : String).length = 7 := rfl
  have e3 : ("at least one \"" : String).length = 14 := rfl
  have e4 : ("\" child is required" : String).length = 19 := rfl
  rw [e1, e2, e3, e4] at hlen
  omega

end XmlParser
